import Mathlib

/-!
A shallow embedding of the `BotFrameworkAdapter` from
`botbuilder-services/src/botFrameworkAdapter.ts` together with the sample
bot handler of `app.js`, and theorems about the embedded operations.

External collaborators (the JWT token validator, `JSON.parse`, and the
`ConnectorClient` network layer) are abstracted as oracle parameters: the
adapter code only observes their success-or-failure outcome, never their
internals.
-/

namespace DirectLine

/-- A conversation reference carried by an activity; in JS `conversation.id`
may be absent (`undefined`), modelled as `none`. -/
structure Conversation where
  id : Option String
deriving Repr, DecidableEq

/-- A channel account, as appears in `membersAdded`. -/
structure ChannelAccount where
  id : Option String
deriving Repr, DecidableEq

/-- The Activity envelope: the fields of the JS object that the adapter and
the sample handler read.  Absent JS fields are `none`. -/
structure Activity where
  type : Option String := none
  text : Option String := none
  conversation : Option Conversation := none
  serviceUrl : Option String := none
  value : Option Int := none
  membersAdded : Option (List ChannelAccount) := none
deriving Repr, DecidableEq

/-- A `ResourceResponse` returned by the connector; `{}` (empty object) is
`{ id := none }`. -/
structure Response where
  id : Option String := none
deriving Repr, DecidableEq

/-- The empty response object `{}` pushed for delays and bodiless results. -/
def emptyResponse : Response := {}

/-- JS truthiness of an optional string: `undefined` and `""` are falsy. -/
def jsStrTruthy : Option String → Bool
  | none => false
  | some s => !s.isEmpty

/-- JS `activity.conversation && activity.conversation.id` as a Bool:
the conversation object must be present and its `id` truthy. -/
def convIdTruthy (a : Activity) : Bool :=
  match a.conversation with
  | none => false
  | some c => jsStrTruthy c.id

/-- The conversation id read by `sendToConversation` (defined when
`convIdTruthy` holds). -/
def convIdOf (a : Activity) : String :=
  match a.conversation with
  | none => ""
  | some c => c.id.getD ""

/-- JS `v || d` on an optional number: `undefined` and `0` are falsy and
yield the default; any other number (negative included) is truthy. -/
def jsOrDefault : Option Int → Int → Int
  | none, d => d
  | some v, d => if v = 0 then d else v

/-- Node.js timer normalization: `setTimeout` sets the delay to 1 when it
is less than 1 or greater than 2147483647 (documented Node behaviour). -/
def setTimeoutClamp (ms : Int) : Int :=
  if ms < 1 ∨ ms > 2147483647 then 1 else ms

/-- The number of milliseconds actually waited for a delay activity:
the JS argument `activity.value || 1` as normalized by Node `setTimeout`. -/
def effectiveDelay (v : Option Int) : Int :=
  setTimeoutClamp (jsOrDefault v 1)

/-- The errors `post` can reject with (`reject(new Error(...))` for the two
missing-field cases, and `reject(err)` for a failed remote call). -/
inductive DispatchError where
  | missingServiceUrl
  | missingConversationId
  | remote (e : String)
deriving Repr, DecidableEq

/-- Observable events of one `post` run, tagged with the index of the
activity being processed: beginning and end of a delay timer, construction
of a `ConnectorClient` (keyed by service URL), and beginning and
completion of a `sendToConversation` network call. -/
inductive Event where
  | delayStart (i : Nat) (ms : Int)
  | delayEnd (i : Nat)
  | clientCreate (i : Nat) (url : String)
  | sendStart (i : Nat) (url : String) (convId : String)
  | sendEnd (i : Nat)
deriving Repr, DecidableEq

/-- The activity index an event belongs to. -/
def eventStep : Event → Nat
  | .delayStart i _ => i
  | .delayEnd i => i
  | .clientCreate i _ => i
  | .sendStart i _ _ => i
  | .sendEnd i => i

/-- Events marking the start of an activity's remote call or delay. -/
def isStartEvent : Event → Bool
  | .delayStart _ _ => true
  | .sendStart _ _ _ => true
  | _ => false

/-- Events marking the completion of an activity's remote call or delay. -/
def isEndEvent : Event → Bool
  | .delayEnd _ => true
  | .sendEnd _ => true
  | _ => false

/-- Outcome of a `post` invocation: the settled promise value, the ordered
trace of observable events, and the list of activity indices the
callback chain `next(i)` actually reached. -/
structure PostResult where
  result : Except DispatchError (List Response)
  trace : List Event
  visited : List Nat
deriving Repr

/-- `responses.push` seen from the recursive result: a response collected at
this step is returned only when the rest of the run resolves; a later
rejection discards it. -/
def consResp (r : Response) : Except DispatchError (List Response) →
    Except DispatchError (List Response)
  | .ok rs => .ok (r :: rs)
  | .error e => .error e

/-- The service URL string of an activity (meaningful when
`jsStrTruthy a.serviceUrl` holds, i.e. when `createClient` returns a
client). -/
def urlOf (a : Activity) : String := a.serviceUrl.getD ""

/-- `createClient`'s cache update: a `ConnectorClient` is constructed and
cached only when no client for this URL exists yet. -/
def cacheAdd (cache : List String) (u : String) : List String :=
  if u ∈ cache then cache else u :: cache

/-- The client-construction events of one `createClient` call: one
construction when the URL is new, none when the cached client is reused. -/
def createEvents (cache : List String) (i : Nat) (u : String) : List Event :=
  if u ∈ cache then [] else [Event.clientCreate i u]

/-- The callback chain `next(i)` of `BotFrameworkAdapter.post`, embedded as
structural recursion on the remaining activities.  `net i` is the outcome of
the `sendToConversation` network call for activity `i` (`.ok none` models a
falsy result body, turned into `{}` by `result || {}`); `cache` is the set
of service URLs already holding a `ConnectorClient` in `clientCache`. -/
def postLoop (net : Nat → Except String (Option Response)) :
    List Activity → Nat → List String → PostResult
  | [], _, _ => ⟨.ok [], [], []⟩
  | a :: rest, i, cache =>
    if a.type = some "delay" then
      let r := postLoop net rest (i + 1) cache
      ⟨consResp emptyResponse r.result,
       Event.delayStart i (effectiveDelay a.value) :: Event.delayEnd i :: r.trace,
       i :: r.visited⟩
    else
      if jsStrTruthy a.serviceUrl then
        if convIdTruthy a then
          match net i with
          | .ok r0 =>
            let r := postLoop net rest (i + 1) (cacheAdd cache (urlOf a))
            ⟨consResp (r0.getD emptyResponse) r.result,
             createEvents cache i (urlOf a) ++
               Event.sendStart i (urlOf a) (convIdOf a) :: Event.sendEnd i :: r.trace,
             i :: r.visited⟩
          | .error e =>
            ⟨.error (.remote e),
             createEvents cache i (urlOf a) ++ [Event.sendStart i (urlOf a) (convIdOf a)],
             [i]⟩
        else
          ⟨.error .missingConversationId, createEvents cache i (urlOf a), [i]⟩
      else
        ⟨.error .missingServiceUrl, [], [i]⟩

/-- `BotFrameworkAdapter.post`: starts the chain at index 0 with an empty
client cache (the cache is a local of each `post` call). -/
def post (net : Nat → Except String (Option Response)) (activities : List Activity) :
    PostResult :=
  postLoop net activities 0 []

/-- The response `post` records for activity `a` at index `i` when the run
succeeds: `{}` for a delay, otherwise the remote result (or `{}` when the
remote result was falsy). -/
def expectedResponse (net : Nat → Except String (Option Response)) (i : Nat)
    (a : Activity) : Response :=
  if a.type = some "delay" then emptyResponse
  else
    match net i with
    | .ok r0 => r0.getD emptyResponse
    | .error _ => emptyResponse

/-- The in-order list of responses of a successful run over `acts`,
starting at index `i`. -/
def expectedFrom (net : Nat → Except String (Option Response)) :
    Nat → List Activity → List Response
  | _, [] => []
  | i, a :: rest => expectedResponse net i a :: expectedFrom net (i + 1) rest

/-- The service URLs for which a `ConnectorClient` was constructed during a
run, in construction order. -/
def creations (t : List Event) : List String :=
  t.filterMap fun e =>
    match e with
    | .clientCreate _ u => some u
    | _ => none

/-! ### Inbound adapter: `processRequest` and `listen` -/

/-- Outcome of `processRequest`: the HTTP status and body written by
`res.send`, and how many times the registered `onReceive` handler ran. -/
structure ProcessResult where
  status : Nat
  body : Option String
  handlerCalls : Nat
deriving Repr, DecidableEq

/-- `BotFrameworkAdapter.processRequest`.  `auth` is the outcome of the
external `JwtTokenValidation.assertValidActivity` call; `handlerOutcome` is
the outcome of awaiting `this.onReceive(activity)` (its error carries
`err.message`; its value lists the replies the handler produced, which the
adapter ignores).  Auth failure sends 401 without running the handler;
handler success sends a bodiless 202; handler failure sends 500 with the
error message. -/
def processRequest (auth : Except String Unit)
    (handlerOutcome : Except String (List String)) : ProcessResult :=
  match auth with
  | .error _ => { status := 401, body := none, handlerCalls := 0 }
  | .ok _ =>
    match handlerOutcome with
    | .ok _ => { status := 202, body := none, handlerCalls := 1 }
    | .error msg => { status := 500, body := some msg, handlerCalls := 1 }

/-- The request object seen by the `listen` middleware: `body` is the
transport-materialized body when present (JS truthiness: absent is `none`),
and `chunks` are the streamed data events accumulated otherwise. -/
structure WebRequest where
  body : Option Activity := none
  chunks : List String := []
deriving Repr, DecidableEq

/-- Outcome of the `listen` handler on one request: the `(status, body)`
pairs written to the response, handler invocation count, how many times
`JSON.parse` ran, and the parse exception left unhandled (the `listen`
callback has no try/catch around `JSON.parse`). -/
structure ListenResult where
  sent : List (Nat × Option String)
  handlerCalls : Nat
  parseCalls : Nat
  unhandledException : Option String
deriving Repr, DecidableEq

/-- Lift a `processRequest` outcome into the `listen` observation,
recording how many times the body was parsed. -/
def listenOf (pr : ProcessResult) (parseCalls : Nat) : ListenResult :=
  ⟨[(pr.status, pr.body)], pr.handlerCalls, parseCalls, none⟩

/-- `BotFrameworkAdapter.listen`.  `parse` is `JSON.parse` over the joined
stream chunks; `auth` and `handler` are as in `processRequest`, consulted on
the parsed activity.  A materialized `req.body` goes straight to
`processRequest` without parsing; otherwise the accumulated data is parsed
once, and a parse failure propagates as an unhandled exception with no
status written and no handler call. -/
def listen (parse : String → Except String Activity)
    (auth : Activity → Except String Unit)
    (handler : Activity → Except String (List String))
    (req : WebRequest) : ListenResult :=
  match req.body with
  | some b => listenOf (processRequest (auth b) (handler b)) 0
  | none =>
    match parse (String.join req.chunks) with
    | .ok b => listenOf (processRequest (auth b) (handler b)) 1
    | .error e => ⟨[], 0, 1, some e⟩

/-! ### The sample bot handler of `app.js` -/

/-- The instructions text replied to the default user (content abbreviated;
only its identity matters here). -/
def instructions : String := "Welcome to the Bot to showcase the DirectLine API."

/-- The reply of the `message` branch of the `app.js` handler for the
trimmed, lowercased text: a hero-card attachment, an image attachment, or
the fallback echo (replies are represented symbolically). -/
def messageReply (text : String) : String :=
  if text = "show me a hero card" then "hero-card"
  else if text = "send me a botframework image" then "botframework-image"
  else "fallback-reply"

/-- The `bot.onReceive` handler of `app.js`.  For a `message` it replies
according to the text.  Then, for a `conversationUpdate`, it reads
`context.request.membersAdded[0].id` unconditionally: when `membersAdded`
is absent the index access throws, and when it is empty the `.id` access
throws, both surfacing as a rejected handler promise with a TypeError
message. -/
def appHandler (req : Activity) : Except String (List String) :=
  let replies1 :=
    if req.type = some "message" then
      [messageReply ((req.text.getD "").trim.toLower)]
    else []
  if req.type = some "conversationUpdate" then
    match req.membersAdded with
    | none => .error "TypeError: cannot read property 0 of undefined"
    | some [] => .error "TypeError: cannot read property id of undefined"
    | some (m :: _) =>
      if m.id = some "default-user" then .ok (replies1 ++ [instructions])
      else .ok replies1
  else .ok replies1

/-! ### Branch equations for `postLoop` -/

lemma postLoop_nil (net : Nat → Except String (Option Response)) (i : Nat)
    (cache : List String) : postLoop net [] i cache = ⟨.ok [], [], []⟩ := rfl

lemma postLoop_delay (net : Nat → Except String (Option Response)) (a : Activity)
    (rest : List Activity) (i : Nat) (cache : List String)
    (hd : a.type = some "delay") :
    postLoop net (a :: rest) i cache =
      ⟨consResp emptyResponse (postLoop net rest (i + 1) cache).result,
       Event.delayStart i (effectiveDelay a.value) :: Event.delayEnd i ::
         (postLoop net rest (i + 1) cache).trace,
       i :: (postLoop net rest (i + 1) cache).visited⟩ := by
  simp [postLoop, hd]

lemma postLoop_noUrl (net : Nat → Except String (Option Response)) (a : Activity)
    (rest : List Activity) (i : Nat) (cache : List String)
    (hd : ¬ a.type = some "delay") (hu : ¬ jsStrTruthy a.serviceUrl) :
    postLoop net (a :: rest) i cache = ⟨.error .missingServiceUrl, [], [i]⟩ := by
  simp [postLoop, hd, hu]

lemma postLoop_noConv (net : Nat → Except String (Option Response)) (a : Activity)
    (rest : List Activity) (i : Nat) (cache : List String)
    (hd : ¬ a.type = some "delay") (hu : jsStrTruthy a.serviceUrl)
    (hc : ¬ convIdTruthy a) :
    postLoop net (a :: rest) i cache =
      ⟨.error .missingConversationId, createEvents cache i (urlOf a), [i]⟩ := by
  simp [postLoop, hd, hu, hc]

lemma postLoop_sendOk (net : Nat → Except String (Option Response)) (a : Activity)
    (rest : List Activity) (i : Nat) (cache : List String)
    (hd : ¬ a.type = some "delay") (hu : jsStrTruthy a.serviceUrl)
    (hc : convIdTruthy a) (r0 : Option Response) (hn : net i = .ok r0) :
    postLoop net (a :: rest) i cache =
      ⟨consResp (r0.getD emptyResponse)
         (postLoop net rest (i + 1) (cacheAdd cache (urlOf a))).result,
       createEvents cache i (urlOf a) ++
         Event.sendStart i (urlOf a) (convIdOf a) :: Event.sendEnd i ::
           (postLoop net rest (i + 1) (cacheAdd cache (urlOf a))).trace,
       i :: (postLoop net rest (i + 1) (cacheAdd cache (urlOf a))).visited⟩ := by
  simp [postLoop, hd, hu, hc, hn]

lemma postLoop_sendErr (net : Nat → Except String (Option Response)) (a : Activity)
    (rest : List Activity) (i : Nat) (cache : List String)
    (hd : ¬ a.type = some "delay") (hu : jsStrTruthy a.serviceUrl)
    (hc : convIdTruthy a) (e : String) (hn : net i = .error e) :
    postLoop net (a :: rest) i cache =
      ⟨.error (.remote e),
       createEvents cache i (urlOf a) ++ [Event.sendStart i (urlOf a) (convIdOf a)],
       [i]⟩ := by
  simp [postLoop, hd, hu, hc, hn]

lemma mem_createEvents {e : Event} {cache : List String} {i : Nat} {u : String}
    (h : e ∈ createEvents cache i u) : e = Event.clientCreate i u := by
  unfold createEvents at h
  split at h
  · simp at h
  · simpa using h

/-! ### Trace and visit invariants of `postLoop` -/

@[simp] lemma eventStep_delayStart (i : Nat) (ms : Int) :
    eventStep (Event.delayStart i ms) = i := rfl

@[simp] lemma eventStep_delayEnd (i : Nat) : eventStep (Event.delayEnd i) = i := rfl

@[simp] lemma eventStep_clientCreate (i : Nat) (u : String) :
    eventStep (Event.clientCreate i u) = i := rfl

@[simp] lemma eventStep_sendStart (i : Nat) (u c : String) :
    eventStep (Event.sendStart i u c) = i := rfl

@[simp] lemma eventStep_sendEnd (i : Nat) : eventStep (Event.sendEnd i) = i := rfl

lemma postLoop_step_range (net : Nat → Except String (Option Response)) :
    ∀ (acts : List Activity) (i : Nat) (cache : List String),
    ∀ e ∈ (postLoop net acts i cache).trace,
      i ≤ eventStep e ∧ eventStep e < i + acts.length := by
  intro acts
  induction acts with
  | nil => intro i cache e he; rw [postLoop_nil] at he; simp at he
  | cons a rest ih =>
    intro i cache e he
    by_cases hd : a.type = some "delay"
    · rw [postLoop_delay net a rest i cache hd] at he
      simp only [List.mem_cons] at he
      rcases he with he | he | he
      · subst he; simp [eventStep]
      · subst he; simp [eventStep]
      · have := ih (i + 1) cache e he
        constructor <;> [omega; (simp [List.length_cons]; omega)]
    · by_cases hu : jsStrTruthy a.serviceUrl
      · by_cases hc : convIdTruthy a
        · cases hn : net i with
          | ok r0 =>
            rw [postLoop_sendOk net a rest i cache hd hu hc r0 hn] at he
            simp only [List.mem_append, List.mem_cons] at he
            rcases he with he | he | he | he
            · rw [mem_createEvents he]; simp [eventStep]
            · subst he; simp [eventStep]
            · subst he; simp [eventStep]
            · have := ih (i + 1) (cacheAdd cache (urlOf a)) e he
              constructor <;> [omega; (simp [List.length_cons]; omega)]
          | error e0 =>
            rw [postLoop_sendErr net a rest i cache hd hu hc e0 hn] at he
            simp only [List.mem_append, List.mem_cons] at he
            rcases he with he | he
            · rw [mem_createEvents he]; simp [eventStep]
            · simp at he; subst he; simp [eventStep]
        · rw [postLoop_noConv net a rest i cache hd hu hc] at he
          rw [mem_createEvents he]; simp [eventStep]
      · rw [postLoop_noUrl net a rest i cache hd hu] at he
        simp at he

lemma postLoop_visited_range (net : Nat → Except String (Option Response)) :
    ∀ (acts : List Activity) (i : Nat) (cache : List String),
    ∀ k ∈ (postLoop net acts i cache).visited, i ≤ k ∧ k < i + acts.length := by
  intro acts
  induction acts with
  | nil => intro i cache k hk; rw [postLoop_nil] at hk; simp at hk
  | cons a rest ih =>
    intro i cache k hk
    by_cases hd : a.type = some "delay"
    · rw [postLoop_delay net a rest i cache hd] at hk
      simp only [List.mem_cons] at hk
      rcases hk with hk | hk
      · subst hk; simp
      · have := ih (i + 1) cache k hk
        constructor <;> [omega; (simp [List.length_cons]; omega)]
    · by_cases hu : jsStrTruthy a.serviceUrl
      · by_cases hc : convIdTruthy a
        · cases hn : net i with
          | ok r0 =>
            rw [postLoop_sendOk net a rest i cache hd hu hc r0 hn] at hk
            simp only [List.mem_cons] at hk
            rcases hk with hk | hk
            · subst hk; simp
            · have := ih (i + 1) (cacheAdd cache (urlOf a)) k hk
              constructor <;> [omega; (simp [List.length_cons]; omega)]
          | error e0 =>
            rw [postLoop_sendErr net a rest i cache hd hu hc e0 hn] at hk
            simp at hk; subst hk; simp
        · rw [postLoop_noConv net a rest i cache hd hu hc] at hk
          simp at hk; subst hk; simp
      · rw [postLoop_noUrl net a rest i cache hd hu] at hk
        simp at hk; subst hk; simp

lemma createEvents_step {cache : List String} {i : Nat} {u : String} :
    ∀ e ∈ createEvents cache i u, eventStep e = i := by
  intro e he; rw [mem_createEvents he]; simp [eventStep]

lemma createEvents_pairwise {cache : List String} {i : Nat} {u : String}
    (R : Event → Event → Prop) : (createEvents cache i u).Pairwise R := by
  unfold createEvents; split <;> simp

lemma postLoop_steps_pairwise (net : Nat → Except String (Option Response)) :
    ∀ (acts : List Activity) (i : Nat) (cache : List String),
    (postLoop net acts i cache).trace.Pairwise
      (fun e f => eventStep e ≤ eventStep f) := by
  intro acts
  induction acts with
  | nil => intro i cache; rw [postLoop_nil]; simp
  | cons a rest ih =>
    intro i cache
    by_cases hd : a.type = some "delay"
    · rw [postLoop_delay net a rest i cache hd]
      refine List.Pairwise.cons ?_ (List.Pairwise.cons ?_ (ih (i + 1) cache))
      · intro f hf
        simp only [List.mem_cons] at hf
        rcases hf with hf | hf
        · subst hf; simp [eventStep]
        · have := (postLoop_step_range net rest (i + 1) cache f hf).1
          simp only [eventStep_delayStart, eventStep_delayEnd, eventStep_sendStart,
            eventStep_sendEnd, eventStep_clientCreate]
          omega
      · intro f hf
        have := (postLoop_step_range net rest (i + 1) cache f hf).1
        simp only [eventStep_delayStart, eventStep_delayEnd, eventStep_sendStart,
          eventStep_sendEnd, eventStep_clientCreate]
        omega
    · by_cases hu : jsStrTruthy a.serviceUrl
      · by_cases hc : convIdTruthy a
        · cases hn : net i with
          | ok r0 =>
            rw [postLoop_sendOk net a rest i cache hd hu hc r0 hn]
            rw [List.pairwise_append]
            refine ⟨createEvents_pairwise _, ?_, ?_⟩
            · refine List.Pairwise.cons ?_ (List.Pairwise.cons ?_
                (ih (i + 1) (cacheAdd cache (urlOf a))))
              · intro f hf
                simp only [List.mem_cons] at hf
                rcases hf with hf | hf
                · subst hf; simp [eventStep]
                · have := (postLoop_step_range net rest (i + 1)
                    (cacheAdd cache (urlOf a)) f hf).1
                  simp only [eventStep_delayStart, eventStep_delayEnd,
                    eventStep_sendStart, eventStep_sendEnd, eventStep_clientCreate]
                  omega
              · intro f hf
                have := (postLoop_step_range net rest (i + 1)
                  (cacheAdd cache (urlOf a)) f hf).1
                simp only [eventStep_delayStart, eventStep_delayEnd,
                  eventStep_sendStart, eventStep_sendEnd, eventStep_clientCreate]
                omega
            · intro x hx y hy
              rw [createEvents_step x hx]
              simp only [List.mem_cons] at hy
              rcases hy with hy | hy | hy
              · subst hy; simp [eventStep]
              · subst hy; simp [eventStep]
              · have := (postLoop_step_range net rest (i + 1)
                  (cacheAdd cache (urlOf a)) y hy).1
                omega
          | error e0 =>
            rw [postLoop_sendErr net a rest i cache hd hu hc e0 hn]
            rw [List.pairwise_append]
            refine ⟨createEvents_pairwise _, by simp, ?_⟩
            intro x hx y hy
            rw [createEvents_step x hx]
            simp only [List.mem_singleton] at hy
            subst hy; simp [eventStep]
        · rw [postLoop_noConv net a rest i cache hd hu hc]
          exact createEvents_pairwise _
      · rw [postLoop_noUrl net a rest i cache hd hu]; simp

lemma postLoop_end_before (net : Nat → Except String (Option Response)) :
    ∀ (acts : List Activity) (i : Nat) (cache : List String) (j k : Nat),
    (∃ e ∈ (postLoop net acts i cache).trace, eventStep e = j) →
    i ≤ k → k < j →
    ∃ e' ∈ (postLoop net acts i cache).trace, isEndEvent e' ∧ eventStep e' = k := by
  intro acts
  induction acts with
  | nil =>
    intro i cache j k hj _ _
    obtain ⟨e, he, _⟩ := hj
    rw [postLoop_nil] at he; simp at he
  | cons a rest ih =>
    intro i cache j k hj hik hkj
    obtain ⟨e, he, hstep⟩ := hj
    by_cases hd : a.type = some "delay"
    · rw [postLoop_delay net a rest i cache hd] at he ⊢
      simp only [List.mem_cons] at he
      rcases he with he | he | he
      · subst he; simp [eventStep] at hstep; omega
      · subst he; simp [eventStep] at hstep; omega
      · rcases Nat.eq_or_lt_of_le hik with hki | hki
        · exact ⟨Event.delayEnd i, by simp, by simp [isEndEvent], by simp [eventStep, hki]⟩
        · obtain ⟨e', he', hend, hstep'⟩ :=
            ih (i + 1) cache j k ⟨e, he, hstep⟩ hki hkj
          exact ⟨e', by simp [he'], hend, hstep'⟩
    · by_cases hu : jsStrTruthy a.serviceUrl
      · by_cases hc : convIdTruthy a
        · cases hn : net i with
          | ok r0 =>
            rw [postLoop_sendOk net a rest i cache hd hu hc r0 hn] at he ⊢
            simp only [List.mem_append, List.mem_cons] at he
            rcases he with he | he | he | he
            · rw [mem_createEvents he] at hstep
              simp [eventStep] at hstep; omega
            · subst he; simp [eventStep] at hstep; omega
            · subst he; simp [eventStep] at hstep; omega
            · rcases Nat.eq_or_lt_of_le hik with hki | hki
              · exact ⟨Event.sendEnd i, by simp, by simp [isEndEvent],
                  by simp [eventStep, hki]⟩
              · obtain ⟨e', he', hend, hstep'⟩ :=
                  ih (i + 1) (cacheAdd cache (urlOf a)) j k ⟨e, he, hstep⟩ hki hkj
                exact ⟨e', by simp [he'], hend, hstep'⟩
          | error e0 =>
            rw [postLoop_sendErr net a rest i cache hd hu hc e0 hn] at he
            simp only [List.mem_append, List.mem_cons] at he
            rcases he with he | he
            · rw [mem_createEvents he] at hstep
              simp [eventStep] at hstep; omega
            · simp at he; subst he; simp [eventStep] at hstep; omega
        · rw [postLoop_noConv net a rest i cache hd hu hc] at he
          rw [mem_createEvents he] at hstep
          simp [eventStep] at hstep; omega
      · rw [postLoop_noUrl net a rest i cache hd hu] at he
        simp at he

lemma consResp_ok {r : Response} {x : Except DispatchError (List Response)}
    {rs : List Response} (h : consResp r x = .ok rs) :
    ∃ rs', x = .ok rs' ∧ rs = r :: rs' := by
  cases x with
  | ok rs' => exact ⟨rs', rfl, by simpa [consResp] using h.symm⟩
  | error e => simp [consResp] at h

lemma consResp_error {r : Response} {x : Except DispatchError (List Response)}
    {e : DispatchError} (h : x = .error e) : consResp r x = .error e := by
  subst h; rfl

lemma postLoop_sendFail (net : Nat → Except String (Option Response)) :
    ∀ (acts : List Activity) (i : Nat) (cache : List String) (j : Nat)
      (u c : String) (e : String),
    Event.sendStart j u c ∈ (postLoop net acts i cache).trace →
    net j = .error e →
    (postLoop net acts i cache).result = .error (.remote e) ∧
    (∀ j' u' c', Event.sendStart j' u' c' ∈ (postLoop net acts i cache).trace →
      j' ≤ j) := by
  intro acts
  induction acts with
  | nil =>
    intro i cache j u c e hmem _
    rw [postLoop_nil] at hmem; simp at hmem
  | cons a rest ih =>
    intro i cache j u c e hmem hne
    by_cases hd : a.type = some "delay"
    · rw [postLoop_delay net a rest i cache hd] at hmem ⊢
      simp only [List.mem_cons] at hmem
      rcases hmem with hmem | hmem | hmem
      · exact absurd hmem (by simp)
      · exact absurd hmem (by simp)
      · obtain ⟨hres, hbound⟩ := ih (i + 1) cache j u c e hmem hne
        refine ⟨consResp_error hres, ?_⟩
        intro j' u' c' hj'
        simp only [List.mem_cons] at hj'
        rcases hj' with hj' | hj' | hj'
        · exact absurd hj' (by simp)
        · exact absurd hj' (by simp)
        · exact hbound j' u' c' hj'
    · by_cases hu : jsStrTruthy a.serviceUrl
      · by_cases hc : convIdTruthy a
        · cases hn : net i with
          | ok r0 =>
            rw [postLoop_sendOk net a rest i cache hd hu hc r0 hn] at hmem ⊢
            simp only [List.mem_append, List.mem_cons] at hmem
            rcases hmem with hmem | hmem | hmem | hmem
            · exact absurd (mem_createEvents hmem) (by simp)
            · have hji : j = i := by
                have := hmem
                simp only [Event.sendStart.injEq] at this
                exact this.1
              subst hji
              rw [hn] at hne
              exact absurd hne (by simp)
            · exact absurd hmem (by simp)
            · obtain ⟨hres, hbound⟩ :=
                ih (i + 1) (cacheAdd cache (urlOf a)) j u c e hmem hne
              have hij : i + 1 ≤ j := by
                have := (postLoop_step_range net rest (i + 1)
                  (cacheAdd cache (urlOf a)) _ hmem).1
                simpa using this
              refine ⟨consResp_error hres, ?_⟩
              intro j' u' c' hj'
              simp only [List.mem_append, List.mem_cons] at hj'
              rcases hj' with hj' | hj' | hj' | hj'
              · exact absurd (mem_createEvents hj') (by simp)
              · have : j' = i := by
                  simp only [Event.sendStart.injEq] at hj'
                  exact hj'.1
                omega
              · exact absurd hj' (by simp)
              · exact hbound j' u' c' hj'
          | error e0 =>
            rw [postLoop_sendErr net a rest i cache hd hu hc e0 hn] at hmem ⊢
            simp only [List.mem_append, List.mem_singleton] at hmem
            rcases hmem with hmem | hmem
            · exact absurd (mem_createEvents hmem) (by simp)
            · have hji : j = i := by
                simp only [Event.sendStart.injEq] at hmem
                exact hmem.1
              subst hji
              rw [hn] at hne
              have he0 : e0 = e := by simpa using hne
              subst he0
              refine ⟨rfl, ?_⟩
              intro j' u' c' hj'
              simp only [List.mem_append, List.mem_singleton] at hj'
              rcases hj' with hj' | hj'
              · exact absurd (mem_createEvents hj') (by simp)
              · simp only [Event.sendStart.injEq] at hj'
                omega
        · rw [postLoop_noConv net a rest i cache hd hu hc] at hmem
          exact absurd (mem_createEvents hmem) (by simp)
      · rw [postLoop_noUrl net a rest i cache hd hu] at hmem
        simp at hmem

lemma postLoop_ok_responses (net : Nat → Except String (Option Response)) :
    ∀ (acts : List Activity) (i : Nat) (cache : List String) (rs : List Response),
    (postLoop net acts i cache).result = .ok rs → rs = expectedFrom net i acts := by
  intro acts
  induction acts with
  | nil =>
    intro i cache rs h
    rw [postLoop_nil] at h
    simp only [Except.ok.injEq] at h
    subst h; rfl
  | cons a rest ih =>
    intro i cache rs h
    by_cases hd : a.type = some "delay"
    · rw [postLoop_delay net a rest i cache hd] at h
      obtain ⟨rs', hx, hrs⟩ := consResp_ok h
      subst hrs
      rw [ih (i + 1) cache rs' hx]
      simp [expectedFrom, expectedResponse, hd]
    · by_cases hu : jsStrTruthy a.serviceUrl
      · by_cases hc : convIdTruthy a
        · cases hn : net i with
          | ok r0 =>
            rw [postLoop_sendOk net a rest i cache hd hu hc r0 hn] at h
            obtain ⟨rs', hx, hrs⟩ := consResp_ok h
            subst hrs
            rw [ih (i + 1) (cacheAdd cache (urlOf a)) rs' hx]
            simp [expectedFrom, expectedResponse, hd, hn]
          | error e0 =>
            rw [postLoop_sendErr net a rest i cache hd hu hc e0 hn] at h
            simp at h
        · rw [postLoop_noConv net a rest i cache hd hu hc] at h
          simp at h
      · rw [postLoop_noUrl net a rest i cache hd hu] at h
        simp at h

lemma postLoop_visited_head (net : Nat → Except String (Option Response))
    (a : Activity) (rest : List Activity) (i : Nat) (cache : List String) :
    i ∈ (postLoop net (a :: rest) i cache).visited := by
  by_cases hd : a.type = some "delay"
  · rw [postLoop_delay net a rest i cache hd]; simp
  · by_cases hu : jsStrTruthy a.serviceUrl
    · by_cases hc : convIdTruthy a
      · cases hn : net i with
        | ok r0 => rw [postLoop_sendOk net a rest i cache hd hu hc r0 hn]; simp
        | error e0 => rw [postLoop_sendErr net a rest i cache hd hu hc e0 hn]; simp
      · rw [postLoop_noConv net a rest i cache hd hu hc]; simp
    · rw [postLoop_noUrl net a rest i cache hd hu]; simp

lemma postLoop_visited_delay (net : Nat → Except String (Option Response)) :
    ∀ (acts : List Activity) (m : Nat) (cache : List String) (k : Nat)
      (hk : k < acts.length),
    (acts.get ⟨k, hk⟩).type = some "delay" →
    (m + k) ∈ (postLoop net acts m cache).visited →
    Event.delayStart (m + k) (effectiveDelay (acts.get ⟨k, hk⟩).value) ∈
      (postLoop net acts m cache).trace ∧
    Event.delayEnd (m + k) ∈ (postLoop net acts m cache).trace ∧
    (∀ u c, Event.sendStart (m + k) u c ∉ (postLoop net acts m cache).trace) ∧
    (∀ u, Event.clientCreate (m + k) u ∉ (postLoop net acts m cache).trace) ∧
    (k + 1 < acts.length → (m + k + 1) ∈ (postLoop net acts m cache).visited) := by
  intro acts
  induction acts with
  | nil => intro m cache k hk; simp at hk
  | cons a rest ih =>
    intro m cache k hk hdk hv
    cases k with
    | zero =>
      have hd : a.type = some "delay" := by simpa using hdk
      rw [postLoop_delay net a rest m cache hd] at hv ⊢
      refine ⟨by simp, by simp, ?_, ?_, ?_⟩
      · intro u c hmem
        simp only [List.mem_cons] at hmem
        rcases hmem with hmem | hmem | hmem
        · exact absurd hmem (by simp)
        · exact absurd hmem (by simp)
        · have := (postLoop_step_range net rest (m + 1) cache _ hmem).1
          simp at this
      · intro u hmem
        simp only [List.mem_cons] at hmem
        rcases hmem with hmem | hmem | hmem
        · exact absurd hmem (by simp)
        · exact absurd hmem (by simp)
        · have := (postLoop_step_range net rest (m + 1) cache _ hmem).1
          simp at this
      · intro hlen
        cases rest with
        | nil => simp at hlen
        | cons b rest' =>
          have : (m + 1) ∈ (postLoop net (b :: rest') (m + 1) cache).visited :=
            postLoop_visited_head net b rest' (m + 1) cache
          simp only [List.mem_cons]
          right
          simpa using this
    | succ k' =>
      have hkr : k' < rest.length := by simpa using hk
      have hdk' : (rest.get ⟨k', hkr⟩).type = some "delay" := hdk
      have harith : m + (k' + 1) = (m + 1) + k' := by omega
      by_cases hd : a.type = some "delay"
      · rw [postLoop_delay net a rest m cache hd] at hv ⊢
        have hv' : ((m + 1) + k') ∈ (postLoop net rest (m + 1) cache).visited := by
          simp only [List.mem_cons] at hv
          rcases hv with hv | hv
          · omega
          · rw [← harith]; exact hv
        obtain ⟨h1, h2, h3, h4, h5⟩ := ih (m + 1) cache k' hkr hdk' hv'
        refine ⟨?_, ?_, ?_, ?_, ?_⟩
        · simp only [List.mem_cons]; right; right
          rw [harith]; exact h1
        · simp only [List.mem_cons]; right; right
          rw [harith]; exact h2
        · intro u c hmem
          simp only [List.mem_cons] at hmem
          rcases hmem with hmem | hmem | hmem
          · exact absurd hmem (by simp)
          · exact absurd hmem (by simp)
          · exact h3 u c (by rw [harith] at hmem; exact hmem)
        · intro u hmem
          simp only [List.mem_cons] at hmem
          rcases hmem with hmem | hmem | hmem
          · exact absurd hmem (by simp)
          · exact absurd hmem (by simp)
          · exact h4 u (by rw [harith] at hmem; exact hmem)
        · intro hlen
          have : k' + 1 < rest.length := by simpa using hlen
          have := h5 this
          simp only [List.mem_cons]; right
          have harith2 : m + (k' + 1) + 1 = (m + 1) + k' + 1 := by omega
          rw [harith2]; exact this
      · by_cases hu : jsStrTruthy a.serviceUrl
        · by_cases hc : convIdTruthy a
          · cases hn : net m with
            | ok r0 =>
              rw [postLoop_sendOk net a rest m cache hd hu hc r0 hn] at hv ⊢
              have hv' : ((m + 1) + k') ∈
                  (postLoop net rest (m + 1) (cacheAdd cache (urlOf a))).visited := by
                simp only [List.mem_cons] at hv
                rcases hv with hv | hv
                · omega
                · rw [← harith]; exact hv
              obtain ⟨h1, h2, h3, h4, h5⟩ :=
                ih (m + 1) (cacheAdd cache (urlOf a)) k' hkr hdk' hv'
              refine ⟨?_, ?_, ?_, ?_, ?_⟩
              · simp only [List.mem_append, List.mem_cons]; right; right; right
                rw [harith]; exact h1
              · simp only [List.mem_append, List.mem_cons]; right; right; right
                rw [harith]; exact h2
              · intro u c hmem
                simp only [List.mem_append, List.mem_cons] at hmem
                rcases hmem with hmem | hmem | hmem | hmem
                · have := mem_createEvents hmem
                  simp only [Event.sendStart.injEq] at this
                  exact absurd this (by simp)
                · simp only [Event.sendStart.injEq] at hmem
                  omega
                · exact absurd hmem (by simp)
                · exact h3 u c (by rw [harith] at hmem; exact hmem)
              · intro u hmem
                simp only [List.mem_append, List.mem_cons] at hmem
                rcases hmem with hmem | hmem | hmem | hmem
                · have := mem_createEvents hmem
                  simp only [Event.clientCreate.injEq] at this
                  omega
                · exact absurd hmem (by simp)
                · exact absurd hmem (by simp)
                · exact h4 u (by rw [harith] at hmem; exact hmem)
              · intro hlen
                have : k' + 1 < rest.length := by simpa using hlen
                have := h5 this
                simp only [List.mem_cons]; right
                have harith2 : m + (k' + 1) + 1 = (m + 1) + k' + 1 := by omega
                rw [harith2]; exact this
            | error e0 =>
              rw [postLoop_sendErr net a rest m cache hd hu hc e0 hn] at hv
              simp at hv
          · rw [postLoop_noConv net a rest m cache hd hu hc] at hv
            simp at hv
        · rw [postLoop_noUrl net a rest m cache hd hu] at hv
          simp at hv

lemma postLoop_visited_noUrl (net : Nat → Except String (Option Response)) :
    ∀ (acts : List Activity) (m : Nat) (cache : List String) (k : Nat)
      (hk : k < acts.length),
    ¬ (acts.get ⟨k, hk⟩).type = some "delay" →
    ¬ jsStrTruthy (acts.get ⟨k, hk⟩).serviceUrl →
    (m + k) ∈ (postLoop net acts m cache).visited →
    (postLoop net acts m cache).result = .error .missingServiceUrl ∧
    (∀ u c, Event.sendStart (m + k) u c ∉ (postLoop net acts m cache).trace) := by
  intro acts
  induction acts with
  | nil => intro m cache k hk; simp at hk
  | cons a rest ih =>
    intro m cache k hk hdk huk hv
    cases k with
    | zero =>
      have hd : ¬ a.type = some "delay" := by simpa using hdk
      have hu : ¬ jsStrTruthy a.serviceUrl := by simpa using huk
      rw [postLoop_noUrl net a rest m cache hd hu]
      exact ⟨rfl, by simp⟩
    | succ k' =>
      have hkr : k' < rest.length := by simpa using hk
      have harith : m + (k' + 1) = (m + 1) + k' := by omega
      by_cases hd : a.type = some "delay"
      · rw [postLoop_delay net a rest m cache hd] at hv ⊢
        have hv' : ((m + 1) + k') ∈ (postLoop net rest (m + 1) cache).visited := by
          simp only [List.mem_cons] at hv
          rcases hv with hv | hv
          · omega
          · rw [← harith]; exact hv
        obtain ⟨h1, h2⟩ := ih (m + 1) cache k' hkr hdk huk hv'
        refine ⟨consResp_error h1, ?_⟩
        intro u c hmem
        simp only [List.mem_cons] at hmem
        rcases hmem with hmem | hmem | hmem
        · exact absurd hmem (by simp)
        · exact absurd hmem (by simp)
        · exact h2 u c (by rw [harith] at hmem; exact hmem)
      · by_cases hu : jsStrTruthy a.serviceUrl
        · by_cases hc : convIdTruthy a
          · cases hn : net m with
            | ok r0 =>
              rw [postLoop_sendOk net a rest m cache hd hu hc r0 hn] at hv ⊢
              have hv' : ((m + 1) + k') ∈
                  (postLoop net rest (m + 1) (cacheAdd cache (urlOf a))).visited := by
                simp only [List.mem_cons] at hv
                rcases hv with hv | hv
                · omega
                · rw [← harith]; exact hv
              obtain ⟨h1, h2⟩ :=
                ih (m + 1) (cacheAdd cache (urlOf a)) k' hkr hdk huk hv'
              refine ⟨consResp_error h1, ?_⟩
              intro u c hmem
              simp only [List.mem_append, List.mem_cons] at hmem
              rcases hmem with hmem | hmem | hmem | hmem
              · have := mem_createEvents hmem
                exact absurd this (by simp)
              · simp only [Event.sendStart.injEq] at hmem
                omega
              · exact absurd hmem (by simp)
              · exact h2 u c (by rw [harith] at hmem; exact hmem)
            | error e0 =>
              rw [postLoop_sendErr net a rest m cache hd hu hc e0 hn] at hv
              simp at hv
          · rw [postLoop_noConv net a rest m cache hd hu hc] at hv
            simp at hv
        · rw [postLoop_noUrl net a rest m cache hd hu] at hv
          simp at hv

lemma postLoop_visited_noConv (net : Nat → Except String (Option Response)) :
    ∀ (acts : List Activity) (m : Nat) (cache : List String) (k : Nat)
      (hk : k < acts.length),
    ¬ (acts.get ⟨k, hk⟩).type = some "delay" →
    jsStrTruthy (acts.get ⟨k, hk⟩).serviceUrl →
    ¬ convIdTruthy (acts.get ⟨k, hk⟩) →
    (m + k) ∈ (postLoop net acts m cache).visited →
    (postLoop net acts m cache).result = .error .missingConversationId ∧
    (∀ u c, Event.sendStart (m + k) u c ∉ (postLoop net acts m cache).trace) := by
  intro acts
  induction acts with
  | nil => intro m cache k hk; simp at hk
  | cons a rest ih =>
    intro m cache k hk hdk huk hck hv
    cases k with
    | zero =>
      have hd : ¬ a.type = some "delay" := by simpa using hdk
      have hu : jsStrTruthy a.serviceUrl := by simpa using huk
      have hc : ¬ convIdTruthy a := by simpa using hck
      rw [postLoop_noConv net a rest m cache hd hu hc]
      refine ⟨rfl, ?_⟩
      intro u c hmem
      exact absurd (mem_createEvents hmem) (by simp)
    | succ k' =>
      have hkr : k' < rest.length := by simpa using hk
      have harith : m + (k' + 1) = (m + 1) + k' := by omega
      by_cases hd : a.type = some "delay"
      · rw [postLoop_delay net a rest m cache hd] at hv ⊢
        have hv' : ((m + 1) + k') ∈ (postLoop net rest (m + 1) cache).visited := by
          simp only [List.mem_cons] at hv
          rcases hv with hv | hv
          · omega
          · rw [← harith]; exact hv
        obtain ⟨h1, h2⟩ := ih (m + 1) cache k' hkr hdk huk hck hv'
        refine ⟨consResp_error h1, ?_⟩
        intro u c hmem
        simp only [List.mem_cons] at hmem
        rcases hmem with hmem | hmem | hmem
        · exact absurd hmem (by simp)
        · exact absurd hmem (by simp)
        · exact h2 u c (by rw [harith] at hmem; exact hmem)
      · by_cases hu : jsStrTruthy a.serviceUrl
        · by_cases hc : convIdTruthy a
          · cases hn : net m with
            | ok r0 =>
              rw [postLoop_sendOk net a rest m cache hd hu hc r0 hn] at hv ⊢
              have hv' : ((m + 1) + k') ∈
                  (postLoop net rest (m + 1) (cacheAdd cache (urlOf a))).visited := by
                simp only [List.mem_cons] at hv
                rcases hv with hv | hv
                · omega
                · rw [← harith]; exact hv
              obtain ⟨h1, h2⟩ :=
                ih (m + 1) (cacheAdd cache (urlOf a)) k' hkr hdk huk hck hv'
              refine ⟨consResp_error h1, ?_⟩
              intro u c hmem
              simp only [List.mem_append, List.mem_cons] at hmem
              rcases hmem with hmem | hmem | hmem | hmem
              · have := mem_createEvents hmem
                exact absurd this (by simp)
              · simp only [Event.sendStart.injEq] at hmem
                omega
              · exact absurd hmem (by simp)
              · exact h2 u c (by rw [harith] at hmem; exact hmem)
            | error e0 =>
              rw [postLoop_sendErr net a rest m cache hd hu hc e0 hn] at hv
              simp at hv
          · rw [postLoop_noConv net a rest m cache hd hu hc] at hv
            simp at hv
        · rw [postLoop_noUrl net a rest m cache hd hu] at hv
          simp at hv

lemma creations_cons (e : Event) (t : List Event) :
    creations (e :: t) =
      (match e with
       | Event.clientCreate _ u => [u]
       | _ => []) ++ creations t := by
  cases e <;> simp [creations]

lemma creations_append (t1 t2 : List Event) :
    creations (t1 ++ t2) = creations t1 ++ creations t2 := by
  simp [creations]

lemma creations_createEvents (cache : List String) (i : Nat) (u : String) :
    creations (createEvents cache i u) = if u ∈ cache then [] else [u] := by
  unfold createEvents
  split <;> simp [creations]

lemma not_mem_cacheAdd {v u : String} {cache : List String}
    (h : v ∉ cacheAdd cache u) : v ≠ u ∧ v ∉ cache := by
  unfold cacheAdd at h
  split at h
  · rename_i hmem
    exact ⟨fun hv => h (hv ▸ hmem), h⟩
  · simp only [List.mem_cons] at h
    push_neg at h
    exact h

lemma mem_cacheAdd_cases {v u : String} {cache : List String}
    (h : v ∈ cacheAdd cache u) : v = u ∨ v ∈ cache := by
  unfold cacheAdd at h
  split at h
  · exact Or.inr h
  · simpa using h

lemma postLoop_creations_nodup (net : Nat → Except String (Option Response)) :
    ∀ (acts : List Activity) (i : Nat) (cache : List String),
    (creations (postLoop net acts i cache).trace).Nodup ∧
    ∀ u ∈ creations (postLoop net acts i cache).trace, u ∉ cache := by
  intro acts
  induction acts with
  | nil => intro i cache; rw [postLoop_nil]; simp [creations]
  | cons a rest ih =>
    intro i cache
    by_cases hd : a.type = some "delay"
    · rw [postLoop_delay net a rest i cache hd]
      have := ih (i + 1) cache
      simpa [creations_cons] using this
    · by_cases hu : jsStrTruthy a.serviceUrl
      · by_cases hc : convIdTruthy a
        · cases hn : net i with
          | ok r0 =>
            rw [postLoop_sendOk net a rest i cache hd hu hc r0 hn]
            obtain ⟨hnd, hdisj⟩ := ih (i + 1) (cacheAdd cache (urlOf a))
            rw [creations_append, creations_createEvents, creations_cons, creations_cons]
            by_cases hmem : urlOf a ∈ cache
            · simp only [if_pos hmem]
              refine ⟨by simpa using hnd, ?_⟩
              intro u hu'
              simp only [List.nil_append] at hu'
              have hu'' : u ∈ creations
                  (postLoop net rest (i + 1) (cacheAdd cache (urlOf a))).trace := by
                simpa using hu'
              have := hdisj u hu''
              exact fun habs => this (by unfold cacheAdd; rw [if_pos hmem]; exact habs)
            · simp only [if_neg hmem]
              constructor
              · refine List.Nodup.cons ?_ (by simpa using hnd)
                intro habs
                have habs' : urlOf a ∈ creations
                    (postLoop net rest (i + 1) (cacheAdd cache (urlOf a))).trace := by
                  simpa using habs
                have := hdisj (urlOf a) habs'
                exact this (by unfold cacheAdd; rw [if_neg hmem]; simp)
              · intro u hu'
                simp only [List.cons_append, List.nil_append, List.mem_cons] at hu'
                rcases hu' with hu' | hu'
                · subst hu'; exact hmem
                · have := hdisj u (by simpa using hu')
                  exact (not_mem_cacheAdd this).2
          | error e0 =>
            rw [postLoop_sendErr net a rest i cache hd hu hc e0 hn]
            rw [creations_append, creations_createEvents, creations_cons]
            by_cases hmem : urlOf a ∈ cache
            · simp [if_pos hmem, creations]
            · simp only [if_neg hmem]
              refine ⟨by simp [creations], ?_⟩
              intro u hu'
              simp only [creations, List.filterMap_nil, List.append_nil,
                List.mem_singleton] at hu'
              subst hu'; exact hmem
        · rw [postLoop_noConv net a rest i cache hd hu hc]
          rw [creations_createEvents]
          by_cases hmem : urlOf a ∈ cache
          · simp [if_pos hmem]
          · simp only [if_neg hmem]
            refine ⟨by simp, ?_⟩
            intro u hu'
            simp only [List.mem_singleton] at hu'
            subst hu'; exact hmem
      · rw [postLoop_noUrl net a rest i cache hd hu]
        simp [creations]

lemma serviceUrl_of_truthy {a : Activity} (h : jsStrTruthy a.serviceUrl) :
    a.serviceUrl = some (urlOf a) := by
  unfold urlOf
  cases hs : a.serviceUrl with
  | none => rw [hs] at h; simp [jsStrTruthy] at h
  | some s => simp

lemma postLoop_creations_mem (net : Nat → Except String (Option Response)) :
    ∀ (acts : List Activity) (i : Nat) (cache : List String) (u : String),
    u ∈ creations (postLoop net acts i cache).trace →
    ∃ a, a ∈ acts ∧ ¬ a.type = some "delay" ∧ a.serviceUrl = some u := by
  intro acts
  induction acts with
  | nil => intro i cache u hu; rw [postLoop_nil] at hu; simp [creations] at hu
  | cons a rest ih =>
    intro i cache u hu'
    by_cases hd : a.type = some "delay"
    · rw [postLoop_delay net a rest i cache hd] at hu'
      rw [creations_cons, creations_cons] at hu'
      simp only [List.nil_append] at hu'
      obtain ⟨b, hb, hbd, hbu⟩ := ih (i + 1) cache u hu'
      exact ⟨b, by simp [hb], hbd, hbu⟩
    · by_cases hu : jsStrTruthy a.serviceUrl
      · by_cases hc : convIdTruthy a
        · cases hn : net i with
          | ok r0 =>
            rw [postLoop_sendOk net a rest i cache hd hu hc r0 hn] at hu'
            rw [creations_append, creations_createEvents, creations_cons,
              creations_cons] at hu'
            simp only [List.nil_append, List.mem_append] at hu'
            rcases hu' with hu' | hu'
            · have : u = urlOf a := by
                by_cases hmem : urlOf a ∈ cache
                · rw [if_pos hmem] at hu'; simp at hu'
                · rw [if_neg hmem] at hu'; simpa using hu'
              subst this
              exact ⟨a, by simp, hd, serviceUrl_of_truthy hu⟩
            · obtain ⟨b, hb, hbd, hbu⟩ := ih (i + 1) (cacheAdd cache (urlOf a)) u hu'
              exact ⟨b, by simp [hb], hbd, hbu⟩
          | error e0 =>
            rw [postLoop_sendErr net a rest i cache hd hu hc e0 hn] at hu'
            rw [creations_append, creations_createEvents, creations_cons] at hu'
            simp only [List.filterMap_nil, creations, List.append_nil,
              List.mem_append] at hu'
            have : u = urlOf a := by
              by_cases hmem : urlOf a ∈ cache
              · rw [if_pos hmem] at hu'; simp at hu'
              · rw [if_neg hmem] at hu'; simpa using hu'
            subst this
            exact ⟨a, by simp, hd, serviceUrl_of_truthy hu⟩
        · rw [postLoop_noConv net a rest i cache hd hu hc] at hu'
          rw [creations_createEvents] at hu'
          have : u = urlOf a := by
            by_cases hmem : urlOf a ∈ cache
            · rw [if_pos hmem] at hu'; simp at hu'
            · rw [if_neg hmem] at hu'; simpa using hu'
          subst this
          exact ⟨a, by simp, hd, serviceUrl_of_truthy hu⟩
      · rw [postLoop_noUrl net a rest i cache hd hu] at hu'
        simp [creations] at hu'

lemma postLoop_send_created (net : Nat → Except String (Option Response)) :
    ∀ (acts : List Activity) (i : Nat) (cache : List String) (j : Nat)
      (u c : String),
    Event.sendStart j u c ∈ (postLoop net acts i cache).trace →
    u ∈ cache ∨ u ∈ creations (postLoop net acts i cache).trace := by
  intro acts
  induction acts with
  | nil => intro i cache j u c hmem; rw [postLoop_nil] at hmem; simp at hmem
  | cons a rest ih =>
    intro i cache j u c hmem
    by_cases hd : a.type = some "delay"
    · rw [postLoop_delay net a rest i cache hd] at hmem ⊢
      simp only [List.mem_cons] at hmem
      rcases hmem with hmem | hmem | hmem
      · exact absurd hmem (by simp)
      · exact absurd hmem (by simp)
      · rcases ih (i + 1) cache j u c hmem with h | h
        · exact Or.inl h
        · right
          rw [creations_cons, creations_cons]
          simpa using h
    · by_cases hu : jsStrTruthy a.serviceUrl
      · by_cases hc : convIdTruthy a
        · cases hn : net i with
          | ok r0 =>
            rw [postLoop_sendOk net a rest i cache hd hu hc r0 hn] at hmem ⊢
            rw [creations_append, creations_createEvents, creations_cons,
              creations_cons]
            simp only [List.mem_append, List.mem_cons] at hmem
            rcases hmem with hmem | hmem | hmem | hmem
            · exact absurd (mem_createEvents hmem) (by simp)
            · have : u = urlOf a := by
                simp only [Event.sendStart.injEq] at hmem
                exact hmem.2.1
              subst this
              by_cases hcm : urlOf a ∈ cache
              · exact Or.inl hcm
              · right
                rw [if_neg hcm]
                simp
            · exact absurd hmem (by simp)
            · rcases ih (i + 1) (cacheAdd cache (urlOf a)) j u c hmem with h | h
              · rcases mem_cacheAdd_cases h with h' | h'
                · subst h'
                  by_cases hcm : urlOf a ∈ cache
                  · exact Or.inl hcm
                  · right; rw [if_neg hcm]; simp
                · exact Or.inl h'
              · right
                simp only [List.nil_append, List.mem_append]
                exact Or.inr (by simpa using h)
          | error e0 =>
            rw [postLoop_sendErr net a rest i cache hd hu hc e0 hn] at hmem ⊢
            rw [creations_append, creations_createEvents, creations_cons]
            simp only [List.mem_append, List.mem_singleton] at hmem
            rcases hmem with hmem | hmem
            · exact absurd (mem_createEvents hmem) (by simp)
            · have : u = urlOf a := by
                simp only [Event.sendStart.injEq] at hmem
                exact hmem.2.1
              subst this
              by_cases hcm : urlOf a ∈ cache
              · exact Or.inl hcm
              · right; rw [if_neg hcm]; simp [creations]
        · rw [postLoop_noConv net a rest i cache hd hu hc] at hmem
          exact absurd (mem_createEvents hmem) (by simp)
      · rw [postLoop_noUrl net a rest i cache hd hu] at hmem
        simp at hmem

lemma expectedFrom_length (net : Nat → Except String (Option Response)) :
    ∀ (acts : List Activity) (i : Nat),
    (expectedFrom net i acts).length = acts.length := by
  intro acts
  induction acts with
  | nil => intro i; rfl
  | cons a rest ih => intro i; simp [expectedFrom, ih (i + 1)]

lemma expectedFrom_get (net : Nat → Except String (Option Response)) :
    ∀ (acts : List Activity) (i k : Nat) (hk : k < acts.length)
      (hk' : k < (expectedFrom net i acts).length),
    (expectedFrom net i acts).get ⟨k, hk'⟩ =
      expectedResponse net (i + k) (acts.get ⟨k, hk⟩) := by
  intro acts
  induction acts with
  | nil => intro i k hk _; simp at hk
  | cons a rest ih =>
    intro i k hk hk'
    cases k with
    | zero => simp [expectedFrom]
    | succ k' =>
      have hkr : k' < rest.length := by simpa using hk
      have hkr' : k' < (expectedFrom net (i + 1) rest).length := by
        rw [expectedFrom_length]; exact hkr
      have := ih (i + 1) k' hkr hkr'
      simp only [expectedFrom, List.get_cons_succ]
      rw [this]
      congr 1
      omega

lemma effectiveDelay_none : effectiveDelay none = 1 := by decide

lemma effectiveDelay_nonpos_or_big {x : Int} (h : x ≤ 0 ∨ x > 2147483647) :
    effectiveDelay (some x) = 1 := by
  by_cases hz : x = 0
  · subst hz; decide
  · simp only [effectiveDelay, jsOrDefault, setTimeoutClamp]
    rw [if_neg hz, if_pos (by omega : x < 1 ∨ x > 2147483647)]

lemma effectiveDelay_inrange {x : Int} (h1 : 0 < x) (h2 : x ≤ 2147483647) :
    effectiveDelay (some x) = x := by
  simp only [effectiveDelay, jsOrDefault, setTimeoutClamp]
  rw [if_neg (by omega : ¬ x = 0), if_neg (by omega : ¬ (x < 1 ∨ x > 2147483647))]

/-! ### Claim theorems -/

/-- C3: for every inbound request whose token validation fails (the
`JwtTokenValidation.assertValidActivity` call rejects, covering missing,
untrusted, and invalid bearer tokens alike), `processRequest` responds
HTTP 401 with no body and never invokes the registered `onReceive`
handler. -/
theorem C3_auth_failure_responds_401 (auth : Except String Unit)
    (handlerOutcome : Except String (List String)) (e : String)
    (h : auth = .error e) :
    (processRequest auth handlerOutcome).status = 401 ∧
    (processRequest auth handlerOutcome).body = none ∧
    (processRequest auth handlerOutcome).handlerCalls = 0 := by
  subst h
  exact ⟨rfl, rfl, rfl⟩

/-- Witness for C3 at a concrete failed validation. -/
theorem C3_witness :
    (processRequest (.error "invalid bearer token") (.ok ["reply"])).status = 401 ∧
    (processRequest (.error "invalid bearer token") (.ok ["reply"])).body = none ∧
    (processRequest (.error "invalid bearer token") (.ok ["reply"])).handlerCalls = 0 :=
  C3_auth_failure_responds_401 (.error "invalid bearer token") (.ok ["reply"])
    "invalid bearer token" rfl

/-- C6: for every authenticated inbound request, a successfully completing
receive-handler yields HTTP 202 with empty body — whatever replies the
handler produced — and a handler that raises yields HTTP 500 with the
error's message as body; the handler runs exactly once in both cases. -/
theorem C6_handler_outcome_status (replies : List String) (msg : String) :
    processRequest (.ok ()) (.ok replies) =
      { status := 202, body := none, handlerCalls := 1 } ∧
    processRequest (.ok ()) (.error msg) =
      { status := 500, body := some msg, handlerCalls := 1 } :=
  ⟨rfl, rfl⟩

/-- C7: when the transport has not materialized `req.body` and the
accumulated streamed data is not valid JSON, the `listen` handler writes no
HTTP status, never invokes the receive-handler, and the parse exception
propagates unhandled; when `req.body` is already materialized, `JSON.parse`
is never entered. -/
theorem C7_parse_failure_unhandled (parse : String → Except String Activity)
    (auth : Activity → Except String Unit)
    (handler : Activity → Except String (List String))
    (chunks : List String) (b : Activity) (e : String)
    (hp : parse (String.join chunks) = .error e) :
    (listen parse auth handler { body := none, chunks := chunks }).sent = [] ∧
    (listen parse auth handler { body := none, chunks := chunks }).handlerCalls = 0 ∧
    (listen parse auth handler
      { body := none, chunks := chunks }).unhandledException = some e ∧
    (listen parse auth handler { body := some b, chunks := chunks }).parseCalls = 0 := by
  refine ⟨?_, ?_, ?_, rfl⟩ <;> simp [listen, hp]

/-- Witness for C7 at a concrete unparsable stream. -/
theorem C7_witness :
    (listen (fun _ => .error "Unexpected end of JSON input")
      (fun _ => .ok ()) (fun _ => .ok [])
      { body := none, chunks := ["not-js"] }).sent = [] ∧
    (listen (fun _ => .error "Unexpected end of JSON input")
      (fun _ => .ok ()) (fun _ => .ok [])
      { body := none, chunks := ["not-js"] }).handlerCalls = 0 ∧
    (listen (fun _ => .error "Unexpected end of JSON input")
      (fun _ => .ok ()) (fun _ => .ok [])
      { body := none, chunks := ["not-js"] }).unhandledException =
        some "Unexpected end of JSON input" ∧
    (listen (fun _ => .error "Unexpected end of JSON input")
      (fun _ => .ok ()) (fun _ => .ok [])
      { body := some { type := some "message" }, chunks := ["not-js"] }).parseCalls
        = 0 :=
  C7_parse_failure_unhandled (fun _ => .error "Unexpected end of JSON input")
    (fun _ => .ok ()) (fun _ => .ok []) ["not-js"] { type := some "message" }
    "Unexpected end of JSON input" rfl

/-- C9: for every inbound `conversationUpdate` activity whose
`membersAdded` is absent or empty, the sample bot's receive-handler throws
(it reads `membersAdded[0].id` unconditionally), so an authenticated
request of this shape is answered with HTTP 500 rather than ignored. -/
theorem C9_conversation_update_throws (a : Activity)
    (ht : a.type = some "conversationUpdate")
    (hm : a.membersAdded = none ∨ a.membersAdded = some []) :
    (∃ msg, appHandler a = .error msg) ∧
    (processRequest (.ok ()) (appHandler a)).status = 500 := by
  have hmsg : a.type = some "message" → False := by
    intro h; rw [ht] at h; simp at h
  rcases hm with hm | hm
  · have he : appHandler a = .error "TypeError: cannot read property 0 of undefined" := by
      unfold appHandler
      rw [ht, hm]
      simp
    exact ⟨⟨_, he⟩, by rw [he]; rfl⟩
  · have he : appHandler a = .error "TypeError: cannot read property id of undefined" := by
      unfold appHandler
      rw [ht, hm]
      simp
    exact ⟨⟨_, he⟩, by rw [he]; rfl⟩

/-- Witness for C9 at a concrete `conversationUpdate` with no
`membersAdded`. -/
theorem C9_witness :
    (∃ msg, appHandler { type := some "conversationUpdate" } = .error msg) ∧
    (processRequest (.ok ())
      (appHandler { type := some "conversationUpdate" })).status = 500 :=
  C9_conversation_update_throws { type := some "conversationUpdate" } rfl
    (Or.inl rfl)

/-- C1: within one `post` call the activities are processed strictly in
input order: the event trace is ordered by activity index, every start of a
remote call or delay is preceded in the trace by the completion of every
earlier activity's remote call or delay, and on success the collected
responses line up with the input activities position by position. -/
theorem C1_post_processes_in_order (net : Nat → Except String (Option Response))
    (acts : List Activity) :
    ((post net acts).trace.Pairwise fun e f => eventStep e ≤ eventStep f)
    ∧ (∀ (p : Nat) (hp : p < (post net acts).trace.length),
        isStartEvent ((post net acts).trace.get ⟨p, hp⟩) →
        ∀ k < eventStep ((post net acts).trace.get ⟨p, hp⟩),
        ∃ (q : Nat) (hq : q < (post net acts).trace.length), q < p ∧
          isEndEvent ((post net acts).trace.get ⟨q, hq⟩) ∧
          eventStep ((post net acts).trace.get ⟨q, hq⟩) = k)
    ∧ (∀ rs, (post net acts).result = .ok rs → rs = expectedFrom net 0 acts) := by
  unfold post
  refine ⟨postLoop_steps_pairwise net acts 0 [], ?_, ?_⟩
  · intro p hp _hstart k hk
    have hmem : (post net acts).trace.get ⟨p, hp⟩ ∈ (post net acts).trace :=
      List.get_mem _ _ _
    obtain ⟨e', he', hEnd, hstep⟩ :=
      postLoop_end_before net acts 0 []
        (eventStep ((post net acts).trace.get ⟨p, hp⟩)) k
        ⟨_, hmem, rfl⟩ (Nat.zero_le k) hk
    obtain ⟨q, hget⟩ := List.get_of_mem he'
    have hpair := postLoop_steps_pairwise net acts 0 []
    rw [List.pairwise_iff_get] at hpair
    have hqp : q.val < p := by
      rcases Nat.lt_trichotomy q.val p with h | h | h
      · exact h
      · exfalso
        have : q = ⟨p, hp⟩ := Fin.ext h
        rw [this] at hget
        rw [hget] at hk
        omega
      · exfalso
        have := hpair ⟨p, hp⟩ q h
        rw [hget] at this
        omega
    refine ⟨q.val, q.isLt, hqp, ?_, ?_⟩
    · have hq2 : (postLoop net acts 0 []).trace.get ⟨q.val, q.isLt⟩ = e' := hget
      rw [hq2]; exact hEnd
    · have hq2 : (postLoop net acts 0 []).trace.get ⟨q.val, q.isLt⟩ = e' := hget
      rw [hq2]; exact hstep
  · intro rs h
    exact postLoop_ok_responses net acts 0 [] rs h

/-- Witness for C1 at a concrete two-activity batch (a message then a
delay), checking the in-order response characterization. -/
theorem C1_witness :
    (post (fun _ => .ok (some { id := some "r1" }))
      [{ type := some "message", serviceUrl := some "https://s.example",
         conversation := some { id := some "c1" } },
       { type := some "delay", value := some 5 }]).result =
        .ok [{ id := some "r1" }, { id := none }] ∧
    ([{ id := some "r1" }, { id := none }] : List Response) =
      expectedFrom (fun _ => .ok (some { id := some "r1" })) 0
        [{ type := some "message", serviceUrl := some "https://s.example",
           conversation := some { id := some "c1" } },
         { type := some "delay", value := some 5 }] :=
  ⟨rfl,
   (C1_post_processes_in_order (fun _ => .ok (some { id := some "r1" }))
      [{ type := some "message", serviceUrl := some "https://s.example",
         conversation := some { id := some "c1" } },
       { type := some "delay", value := some 5 }]).2.2
     [{ id := some "r1" }, { id := none }] rfl⟩

/-- C2: if the remote send for the activity at position `i` was started and
the network call fails, the whole `post` call rejects with exactly that
remote error (so responses already collected are discarded: the result is
an error, not a partial list), and no send for any later activity is ever
started. -/
theorem C2_post_rejects_on_remote_failure
    (net : Nat → Except String (Option Response)) (acts : List Activity)
    (i : Nat) (u c : String) (e : String)
    (hs : Event.sendStart i u c ∈ (post net acts).trace)
    (hn : net i = .error e) :
    (post net acts).result = .error (.remote e) ∧
    (∀ j u' c', Event.sendStart j u' c' ∈ (post net acts).trace → j ≤ i) :=
  postLoop_sendFail net acts 0 [] i u c e hs hn

/-- Witness for C2: a two-activity batch whose first send fails; the call
rejects with the remote error and the second activity is never sent. -/
theorem C2_witness :
    Event.sendStart 0 "https://s.example" "c1" ∈
      (post (fun n => if n = 0 then .error "ECONNRESET" else .ok none)
        [{ type := some "message", serviceUrl := some "https://s.example",
           conversation := some { id := some "c1" } },
         { type := some "message", serviceUrl := some "https://s.example",
           conversation := some { id := some "c1" } }]).trace ∧
    (post (fun n => if n = 0 then .error "ECONNRESET" else .ok none)
      [{ type := some "message", serviceUrl := some "https://s.example",
         conversation := some { id := some "c1" } },
       { type := some "message", serviceUrl := some "https://s.example",
         conversation := some { id := some "c1" } }]).result =
      .error (.remote "ECONNRESET") := by
  have hmem : Event.sendStart 0 "https://s.example" "c1" ∈
      (post (fun n => if n = 0 then .error "ECONNRESET" else .ok none)
        [{ type := some "message", serviceUrl := some "https://s.example",
           conversation := some { id := some "c1" } },
         { type := some "message", serviceUrl := some "https://s.example",
           conversation := some { id := some "c1" } }]).trace := by decide
  exact ⟨hmem,
    (C2_post_rejects_on_remote_failure
      (fun n => if n = 0 then .error "ECONNRESET" else .ok none) _ 0
      "https://s.example" "c1" "ECONNRESET" hmem rfl).1⟩

/-- C5: for every non-delay activity reached by the dispatch chain, an
absent (falsy) `serviceUrl` makes the whole call reject with the
missing-serviceUrl error and no send is started for that activity; a truthy
`serviceUrl` with an absent (falsy) `conversation.id` makes the whole call
reject with the missing-conversation-id error, likewise with no send
started for that activity. -/
theorem C5_missing_fields_reject (net : Nat → Except String (Option Response))
    (acts : List Activity) (k : Nat) (hk : k < acts.length)
    (hv : k ∈ (post net acts).visited)
    (hnd : ¬ (acts.get ⟨k, hk⟩).type = some "delay") :
    (¬ jsStrTruthy (acts.get ⟨k, hk⟩).serviceUrl →
      (post net acts).result = .error .missingServiceUrl ∧
      ∀ u c, Event.sendStart k u c ∉ (post net acts).trace)
    ∧ (jsStrTruthy (acts.get ⟨k, hk⟩).serviceUrl →
       ¬ convIdTruthy (acts.get ⟨k, hk⟩) →
      (post net acts).result = .error .missingConversationId ∧
      ∀ u c, Event.sendStart k u c ∉ (post net acts).trace) := by
  constructor
  · intro hu
    have := postLoop_visited_noUrl net acts 0 [] k hk hnd hu (by simpa using hv)
    simpa using this
  · intro hu hc
    have := postLoop_visited_noConv net acts 0 [] k hk hnd hu hc (by simpa using hv)
    simpa using this

/-- Witness for C5: a single activity with no `serviceUrl` rejects with the
missing-serviceUrl error without any send. -/
theorem C5_witness :
    (post (fun _ => .ok none) [{ type := some "message" }]).result =
      .error .missingServiceUrl ∧
    (∀ u c, Event.sendStart 0 u c ∉
      (post (fun _ => .ok none) [{ type := some "message" }]).trace) :=
  (C5_missing_fields_reject (fun _ => .ok none) [{ type := some "message" }] 0
    (by decide) (by decide) (by decide)).1 (by decide)

/-- C8: within a single `post` invocation at most one `ConnectorClient` is
constructed per distinct service URL (the construction list has no
duplicates), every constructed client's URL is the `serviceUrl` of some
non-delay activity of the batch, and every send's client was constructed
within this same invocation — the cache starts empty at each call, so no
client is reused from outside the invocation. -/
theorem C8_client_cache_per_invocation
    (net : Nat → Except String (Option Response)) (acts : List Activity) :
    (creations (post net acts).trace).Nodup
    ∧ (∀ u, u ∈ creations (post net acts).trace →
        ∃ a, a ∈ acts ∧ ¬ a.type = some "delay" ∧ a.serviceUrl = some u)
    ∧ (∀ i u c, Event.sendStart i u c ∈ (post net acts).trace →
        u ∈ creations (post net acts).trace) := by
  refine ⟨(postLoop_creations_nodup net acts 0 []).1, ?_, ?_⟩
  · intro u hu
    exact postLoop_creations_mem net acts 0 [] u hu
  · intro i u c hmem
    rcases postLoop_send_created net acts 0 [] i u c hmem with h | h
    · simp at h
    · exact h

/-- Witness for C8: two sends to the same URL in one batch construct the
client once, and that construction belongs to this invocation. -/
theorem C8_witness :
    (creations (post (fun _ => .ok none)
      [{ type := some "message", serviceUrl := some "https://s.example",
         conversation := some { id := some "c1" } },
       { type := some "message", serviceUrl := some "https://s.example",
         conversation := some { id := some "c1" } }]).trace).Nodup ∧
    "https://s.example" ∈ creations (post (fun _ => .ok none)
      [{ type := some "message", serviceUrl := some "https://s.example",
         conversation := some { id := some "c1" } },
       { type := some "message", serviceUrl := some "https://s.example",
         conversation := some { id := some "c1" } }]).trace :=
  ⟨(C8_client_cache_per_invocation (fun _ => .ok none)
      [{ type := some "message", serviceUrl := some "https://s.example",
         conversation := some { id := some "c1" } },
       { type := some "message", serviceUrl := some "https://s.example",
         conversation := some { id := some "c1" } }]).1,
   (C8_client_cache_per_invocation (fun _ => .ok none)
      [{ type := some "message", serviceUrl := some "https://s.example",
         conversation := some { id := some "c1" } },
       { type := some "message", serviceUrl := some "https://s.example",
         conversation := some { id := some "c1" } }]).2.2 1 "https://s.example"
     "c1" (by decide)⟩

/-- C4 (counterexample to the claim as stated): for a delay activity whose
`value` is the positive number 2147483648, the dispatcher does not wait
`value` milliseconds — the trace records a 1 ms wait, because `setTimeout`
normalizes delays above 2147483647 to 1. -/
theorem C4_counterexample_delay_overflow :
    (post (fun _ => .ok none)
      [{ type := some "delay", value := some 2147483648 }]).trace =
      [Event.delayStart 0 1, Event.delayEnd 0] ∧
    (1 : Int) ≠ 2147483648 :=
  ⟨rfl, by decide⟩

/-- C4 (amended): for every delay activity reached by the dispatch chain,
the dispatcher waits `effectiveDelay value` milliseconds — `value` itself
when `1 ≤ value ≤ 2147483647`, and 1 ms when `value` is unspecified, zero,
negative, or above 2147483647 — then records an empty Response at that
activity's position and proceeds to the next activity, performing no
client construction and no network call for the delay. -/
theorem C4_delay_step_behaviour (net : Nat → Except String (Option Response))
    (acts : List Activity) (k : Nat) (hk : k < acts.length)
    (hd : (acts.get ⟨k, hk⟩).type = some "delay")
    (hv : k ∈ (post net acts).visited) :
    Event.delayStart k (effectiveDelay (acts.get ⟨k, hk⟩).value) ∈
      (post net acts).trace
    ∧ Event.delayEnd k ∈ (post net acts).trace
    ∧ (∀ u c, Event.sendStart k u c ∉ (post net acts).trace)
    ∧ (∀ u, Event.clientCreate k u ∉ (post net acts).trace)
    ∧ (k + 1 < acts.length → (k + 1) ∈ (post net acts).visited)
    ∧ (∀ rs, (post net acts).result = .ok rs →
        ∃ h : k < rs.length, rs.get ⟨k, h⟩ = emptyResponse)
    ∧ ((acts.get ⟨k, hk⟩).value = none → effectiveDelay (acts.get ⟨k, hk⟩).value = 1)
    ∧ (∀ x, (acts.get ⟨k, hk⟩).value = some x → (x ≤ 0 ∨ x > 2147483647) →
        effectiveDelay (acts.get ⟨k, hk⟩).value = 1)
    ∧ (∀ x, (acts.get ⟨k, hk⟩).value = some x → 0 < x → x ≤ 2147483647 →
        effectiveDelay (acts.get ⟨k, hk⟩).value = x) := by
  obtain ⟨h1, h2, h3, h4, h5⟩ :=
    postLoop_visited_delay net acts 0 [] k hk hd (by simpa using hv)
  refine ⟨by simpa using h1, by simpa using h2, by simpa using h3,
    by simpa using h4, fun hlen => by simpa using h5 hlen, ?_, ?_, ?_, ?_⟩
  · intro rs hok
    have hrs := postLoop_ok_responses net acts 0 [] rs hok
    subst hrs
    have hk2 : k < (expectedFrom net 0 acts).length := by
      rw [expectedFrom_length]; exact hk
    refine ⟨hk2, ?_⟩
    rw [expectedFrom_get net acts 0 k hk hk2]
    simp only [Nat.zero_add]
    unfold expectedResponse
    rw [if_pos hd]
  · intro hnone
    rw [hnone]
    exact effectiveDelay_none
  · intro x hx hrange
    rw [hx]
    exact effectiveDelay_nonpos_or_big hrange
  · intro x hx hpos hle
    rw [hx]
    exact effectiveDelay_inrange hpos hle

/-- Witness for C4 (amended) at a concrete batch with an unspecified-value
delay in second position. -/
theorem C4_witness :
    Event.delayStart 1 (effectiveDelay none) ∈
      (post (fun _ => .ok none)
        [{ type := some "delay", value := some 50 },
         { type := some "delay" }]).trace ∧
    effectiveDelay none = 1 := by
  have h := C4_delay_step_behaviour (fun _ => .ok none)
    [{ type := some "delay", value := some 50 }, { type := some "delay" }] 1
    (by decide) (by decide) (by decide)
  exact ⟨h.1, h.2.2.2.2.2.2.1 rfl⟩

/-- C10: `post` on the empty activity list always resolves with the empty
response list, with an empty trace (so no `ConnectorClient` construction
and no network call) and no step visited. -/
theorem C10_post_empty (net : Nat → Except String (Option Response)) :
    post net [] = { result := .ok [], trace := [], visited := [] } := rfl

end DirectLine
